import Mathlib

/-!
Shallow embedding of `k2fsr_a.c`, a simulation of KCipher-2's FSR-A register:
GF(2^8) multiplication (`multi_GF`), the coefficient builder
(`make_coefficients`), the alpha lookup-table builder (`make_alpha_table`),
the register update (`update_fsr`), and the parity helper (`parity8`).
Machine words are `Nat` with explicit `% 2^32` wherever the C `uint32_t`
arithmetic can overflow.
-/

set_option maxRecDepth 100000

namespace K2

/-- `uint32_t` modulus, `2^32`. -/
def U32 : Nat := 4294967296

/-- `parity8` from the source: `p = x; p ^= p>>4; p ^= p>>2; p ^= p>>1; return p & 1`.
All operations stay below the operand's magnitude, so no `% 2^32` is needed. -/
def parity8 (x : Nat) : Nat :=
  let p := x
  let p := p ^^^ (p >>> 4)
  let p := p ^^^ (p >>> 2)
  let p := p ^^^ (p >>> 1)
  p &&& 1

/-- The scan `for (pos = 7; pos >= 0; pos--) if (num & (1 << pos)) break;` of
`multi_GF`: the highest set bit of `num` among positions `p` down to `0`,
`none` when no such bit is set (the C loop then leaves `pos = -1`). -/
def findPosAux (num : Nat) : Nat → Option Nat
  | 0 => if num &&& 1 ≠ 0 then some 0 else none
  | p + 1 => if num &&& (1 <<< (p + 1)) ≠ 0 then some (p + 1) else findPosAux num p

/-- The main loop of `multi_GF`: with `i + 1` iterations left the loop body runs
at bit position `i`, so `gfIter a num gf gfIdx t (pos+1)` is the C loop
`for (i = pos; i >= 0; i--)` started from accumulator `t`.
Body: `t = (t << 1) ^ ((num & (1 << i)) ? a : 0); if (t & (1 << gf_idx)) t ^= gf;`
with the `uint32_t` shift wrapped modulo `2^32`. -/
def gfIter (a num gf gfIdx : Nat) : Nat → Nat → Nat
  | t, 0 => t
  | t, i + 1 =>
      let t1 := ((t <<< 1) % U32) ^^^ (if num &&& (1 <<< i) ≠ 0 then a else 0)
      let t2 := if t1 &&& (1 <<< gfIdx) ≠ 0 then t1 ^^^ gf else t1
      gfIter a num gf gfIdx t2 i

/-- `multi_GF(a, num, gf, gf_idx)`: find the highest set bit of `num` in
positions 7..0; when none is set the loop body never runs and `t = 0` is
returned; otherwise run the multiply loop from that position down to 0. -/
def multi_GF (a num gf gfIdx : Nat) : Nat :=
  match findPosAux num 7 with
  | none => 0
  | some pos => gfIter a num gf gfIdx 0 (pos + 1)

/-- The variant of the `multi_GF` loop that unconditionally processes all 8 bits
of `num`, from bit 7 down to bit 0 (the comparison point of the spec's
remark that leading zero bits of the second operand are inert). -/
def multi_GF_full (a num gf gfIdx : Nat) : Nat :=
  gfIter a num gf gfIdx 0 8

/-- One pass of the inner loop body of `make_coefficients`:
`multi <<= 1; if (multi & 0x100) multi ^= gf | !(parity8(multi ^ gf));`
(`!v` in C is `1` when `v = 0` and `0` otherwise). -/
def coeffStep (gf m : Nat) : Nat :=
  let m1 := (m <<< 1) % U32
  if m1 &&& 256 ≠ 0 then m1 ^^^ (gf ||| (if parity8 (m1 ^^^ gf) = 0 then 1 else 0))
  else m1

/-- The inner loop of `make_coefficients`: apply `coeffStep` `n` times. -/
def coeffLoop (gf : Nat) : Nat → Nat → Nat
  | 0, m => m
  | n + 1, m => coeffLoop gf n (coeffStep gf m)

/-- `make_coefficients(multi, index, gf)`: for each `i` in `[0, ALPHA_SIZE=4)`,
run the doubling-and-reduce loop `index[i]` times on `multi[i]` in place. -/
def make_coefficients (multi index : List Nat) (gf : Nat) : List Nat :=
  (List.range 4).foldl (fun t i => t.set i (coeffLoop gf (index.getD i 0) (t.getD i 0))) multi

/-- The inner `j`-loop of `make_alpha_table` acting on one entry:
`for (j = 0; j < 4; j++) alpha[i] |= multi_GF(multi[j], i, gf, 8) << (j*8);`
starting from the entry's previous contents `init`, the `uint32_t` shift
wrapped modulo `2^32`. -/
def alphaEntry (multi : List Nat) (gf i init : Nat) : Nat :=
  (List.range 4).foldl
    (fun a j => a ||| ((multi_GF (multi.getD j 0) i gf 8 <<< (j * 8)) % U32)) init

/-- `make_alpha_table(alpha, multi, gf)`: for each `i` in `[0, TABLE_SIZE=256)`,
OR the four packed lane products into `alpha[i]` (no zero-initialisation
inside the function; the entry's prior contents survive under `|=`). -/
def make_alpha_table (alpha multi : List Nat) (gf : Nat) : List Nat :=
  (List.range 256).foldl (fun t i => t.set i (alphaEntry multi gf i (t.getD i 0))) alpha

/-- `update_fsr(fsr, alpha)`: compute the feedback word
`fb = (fsr[0] << 8) ^ alpha[fsr[0] >> 24] ^ fsr[3]` (the `uint32_t` shift
wrapped modulo `2^32`), then shift the register file down and store `fb`
in the last slot, exactly in the source's assignment order. -/
def update_fsr (fsr alpha : List Nat) : List Nat :=
  let fb := ((fsr.getD 0 0 <<< 8) % U32) ^^^ alpha.getD (fsr.getD 0 0 >>> 24) 0 ^^^ fsr.getD 3 0
  let s0 := fsr.set 0 (fsr.getD 1 0)
  let s1 := s0.set 1 (s0.getD 2 0)
  let s2 := s1.set 2 (s1.getD 3 0)
  let s3 := s2.set 3 (s2.getD 4 0)
  s3.set 4 fb

/-- XOR-fold of all binary digits of `x` (the spec's notion of parity),
computed with fuel `f ≥ bit-length of x`; `bitFoldAux f 0 = 0` for any fuel.
Written with a bare `Nat.rec` and an early exit at 0 so that the kernel can
evaluate it without materialising the full fuel chain. -/
def bitFoldAux : Nat → Nat → Nat :=
  @Nat.rec (fun _ => Nat → Nat) (fun _ => 0)
    (fun _ ih x => if x = 0 then 0 else (x % 2) ^^^ ih (x / 2))

/-- XOR-fold of all binary digits of `x`: `1` when `x` has an odd number of set
bits, else `0`. Fuel `x` suffices because `x < 2^x`. -/
def bitFold (x : Nat) : Nat := bitFoldAux x x

/-- Modelled from the spec's description of the coefficient builder, one step:
left-shift the accumulator by one bit; if bit 8 becomes set, XOR the
accumulator with `modulus OR 1` when `parity(accumulator XOR modulus) = 0`,
else with the modulus alone. -/
def coeffSpecStep (gf m : Nat) : Nat :=
  let m1 := m <<< 1
  if m1 &&& 256 ≠ 0 then
    if bitFold (m1 ^^^ gf) = 0 then m1 ^^^ (gf ||| 1) else m1 ^^^ gf
  else m1

/-- Modelled from the spec: start an accumulator at 1 and repeat the
shift-and-reduce step `e` times. -/
def coeffSpecLoop (gf : Nat) : Nat → Nat → Nat
  | 0, m => m
  | e + 1, m => coeffSpecLoop gf e (coeffSpecStep gf m)

/-- Modelled from the spec: the field element produced for exponent `e`. -/
def coeffSpec (gf e : Nat) : Nat := coeffSpecLoop gf e 1

end K2

namespace K2

/-! ### Helper lemmas: bit manipulation -/

/-- The C truth test `z & (1 << i)` is the `i`-th bit of `z`. -/
lemma and_one_shiftLeft_ne_zero (z i : Nat) :
    z &&& (1 <<< i) ≠ 0 ↔ z.testBit i = true := by
  rw [Nat.one_shiftLeft, Nat.and_two_pow]
  cases h : z.testBit i <;> simp [h, Nat.pos_iff_ne_zero.mp (Nat.two_pow_pos i)]

/-- Reduction modulo a power of two distributes over XOR. -/
lemma mod_two_pow_xor (x y n : Nat) :
    (x ^^^ y) % 2 ^ n = (x % 2 ^ n) ^^^ (y % 2 ^ n) := by
  apply Nat.eq_of_testBit_eq
  intro k
  simp only [Nat.testBit_mod_two_pow, Nat.testBit_xor]
  cases decide (k < n) <;> simp_all

/-- Left shift distributes over XOR. -/
lemma shiftLeft_xor (x y n : Nat) :
    (x ^^^ y) <<< n = (x <<< n) ^^^ (y <<< n) := by
  apply Nat.eq_of_testBit_eq
  intro k
  simp only [Nat.testBit_shiftLeft, Nat.testBit_xor]
  cases decide (k ≥ n) <;> simp_all

/-- The shift-and-mask `(t << 1) % 2^32` of the multiply loop distributes
over XOR. -/
lemma shift_mask_xor (x y : Nat) :
    (((x ^^^ y) <<< 1) % U32) = ((x <<< 1) % U32) ^^^ ((y <<< 1) % U32) := by
  have h32 : U32 = 2 ^ 32 := by norm_num [U32]
  rw [h32, shiftLeft_xor, mod_two_pow_xor]

/-- Unfolding equation for one iteration of the multiply loop. -/
lemma gfIter_succ (a num gf gfIdx t i : Nat) :
    gfIter a num gf gfIdx t (i + 1) =
      gfIter a num gf gfIdx
        (if (((t <<< 1) % U32) ^^^ (if num &&& (1 <<< i) ≠ 0 then a else 0)) &&& (1 <<< gfIdx) ≠ 0
         then (((t <<< 1) % U32) ^^^ (if num &&& (1 <<< i) ≠ 0 then a else 0)) ^^^ gf
         else (((t <<< 1) % U32) ^^^ (if num &&& (1 <<< i) ≠ 0 then a else 0))) i := rfl

/-- The conditional reduction step of the loop is XOR-additive: reducing the
XOR of two accumulators equals the XOR of the two reduced accumulators
(the modulus cancels when both have the reduce bit set). -/
lemma red_xor (gf gfIdx u v : Nat) :
    (if u &&& (1 <<< gfIdx) ≠ 0 then u ^^^ gf else u) ^^^
      (if v &&& (1 <<< gfIdx) ≠ 0 then v ^^^ gf else v) =
    (if (u ^^^ v) &&& (1 <<< gfIdx) ≠ 0 then (u ^^^ v) ^^^ gf else u ^^^ v) := by
  cases hu : u.testBit gfIdx <;> cases hv : v.testBit gfIdx
  · have h1 : ¬(u &&& (1 <<< gfIdx) ≠ 0) := by simp [and_one_shiftLeft_ne_zero, hu]
    have h2 : ¬(v &&& (1 <<< gfIdx) ≠ 0) := by simp [and_one_shiftLeft_ne_zero, hv]
    have h3 : ¬((u ^^^ v) &&& (1 <<< gfIdx) ≠ 0) := by
      simp [and_one_shiftLeft_ne_zero, Nat.testBit_xor, hu, hv]
    rw [if_neg h1, if_neg h2, if_neg h3]
  · have h1 : ¬(u &&& (1 <<< gfIdx) ≠ 0) := by simp [and_one_shiftLeft_ne_zero, hu]
    have h2 : v &&& (1 <<< gfIdx) ≠ 0 := by simp [and_one_shiftLeft_ne_zero, hv]
    have h3 : (u ^^^ v) &&& (1 <<< gfIdx) ≠ 0 := by
      simp [and_one_shiftLeft_ne_zero, Nat.testBit_xor, hu, hv]
    rw [if_neg h1, if_pos h2, if_pos h3, Nat.xor_assoc]
  · have h1 : u &&& (1 <<< gfIdx) ≠ 0 := by simp [and_one_shiftLeft_ne_zero, hu]
    have h2 : ¬(v &&& (1 <<< gfIdx) ≠ 0) := by simp [and_one_shiftLeft_ne_zero, hv]
    have h3 : (u ^^^ v) &&& (1 <<< gfIdx) ≠ 0 := by
      simp [and_one_shiftLeft_ne_zero, Nat.testBit_xor, hu, hv]
    rw [if_pos h1, if_neg h2, if_pos h3, Nat.xor_assoc, Nat.xor_comm gf v, ← Nat.xor_assoc]
  · have h1 : u &&& (1 <<< gfIdx) ≠ 0 := by simp [and_one_shiftLeft_ne_zero, hu]
    have h2 : v &&& (1 <<< gfIdx) ≠ 0 := by simp [and_one_shiftLeft_ne_zero, hv]
    have h3 : ¬((u ^^^ v) &&& (1 <<< gfIdx) ≠ 0) := by
      simp [and_one_shiftLeft_ne_zero, Nat.testBit_xor, hu, hv]
    rw [if_pos h1, if_pos h2, if_neg h3, Nat.xor_assoc, Nat.xor_comm v gf,
      ← Nat.xor_assoc gf gf v, Nat.xor_self, Nat.zero_xor]

/-- Pairwise exchange under XOR. -/
lemma xor_xor_xor_comm (a b c d : Nat) :
    (a ^^^ b) ^^^ (c ^^^ d) = (a ^^^ c) ^^^ (b ^^^ d) := by
  rw [Nat.xor_assoc, ← Nat.xor_assoc b c d, Nat.xor_comm b c, Nat.xor_assoc c b d,
    ← Nat.xor_assoc]

/-- The injected term `(num & (1 << i)) ? a : 0` is XOR-additive in `num`. -/
lemma inj_xor_num (a b1 b2 i : Nat) :
    (if b1 &&& (1 <<< i) ≠ 0 then a else 0) ^^^ (if b2 &&& (1 <<< i) ≠ 0 then a else 0) =
    (if (b1 ^^^ b2) &&& (1 <<< i) ≠ 0 then a else 0) := by
  cases h1 : b1.testBit i <;> cases h2 : b2.testBit i <;>
    simp [and_one_shiftLeft_ne_zero, Nat.testBit_xor, h1, h2]

/-- The multiply loop is XOR-additive in its second operand (jointly with the
accumulator): running it on `b1` from `t1` and on `b2` from `t2` and XOR-ing
the results equals running it on `b1 XOR b2` from `t1 XOR t2`. -/
lemma gfIter_xor_num (a gf gfIdx : Nat) :
    ∀ n b1 b2 t1 t2, gfIter a b1 gf gfIdx t1 n ^^^ gfIter a b2 gf gfIdx t2 n =
      gfIter a (b1 ^^^ b2) gf gfIdx (t1 ^^^ t2) n := by
  intro n
  induction n with
  | zero => intro b1 b2 t1 t2; rfl
  | succ i ih =>
      intro b1 b2 t1 t2
      have hu : (((t1 <<< 1) % U32) ^^^ (if b1 &&& (1 <<< i) ≠ 0 then a else 0)) ^^^
            (((t2 <<< 1) % U32) ^^^ (if b2 &&& (1 <<< i) ≠ 0 then a else 0)) =
          (((t1 ^^^ t2) <<< 1) % U32) ^^^ (if (b1 ^^^ b2) &&& (1 <<< i) ≠ 0 then a else 0) := by
        rw [shift_mask_xor, ← inj_xor_num, xor_xor_xor_comm]
      rw [gfIter_succ, gfIter_succ, gfIter_succ, ih, red_xor, hu]

/-- The injected term is XOR-additive in `a`. -/
lemma inj_xor_a (a1 a2 b i : Nat) :
    (if b &&& (1 <<< i) ≠ 0 then a1 else 0) ^^^ (if b &&& (1 <<< i) ≠ 0 then a2 else 0) =
    (if b &&& (1 <<< i) ≠ 0 then a1 ^^^ a2 else 0) := by
  by_cases h : b &&& (1 <<< i) ≠ 0 <;> simp [h]

/-- The multiply loop is XOR-additive in its first operand (jointly with the
accumulator). -/
lemma gfIter_xor_a (b gf gfIdx : Nat) :
    ∀ n a1 a2 t1 t2, gfIter a1 b gf gfIdx t1 n ^^^ gfIter a2 b gf gfIdx t2 n =
      gfIter (a1 ^^^ a2) b gf gfIdx (t1 ^^^ t2) n := by
  intro n
  induction n with
  | zero => intro a1 a2 t1 t2; rfl
  | succ i ih =>
      intro a1 a2 t1 t2
      have hu : (((t1 <<< 1) % U32) ^^^ (if b &&& (1 <<< i) ≠ 0 then a1 else 0)) ^^^
            (((t2 <<< 1) % U32) ^^^ (if b &&& (1 <<< i) ≠ 0 then a2 else 0)) =
          (((t1 ^^^ t2) <<< 1) % U32) ^^^ (if b &&& (1 <<< i) ≠ 0 then a1 ^^^ a2 else 0) := by
        rw [shift_mask_xor, ← inj_xor_a, xor_xor_xor_comm]
      rw [gfIter_succ, gfIter_succ, gfIter_succ, ih, red_xor, hu]

/-- With first operand 0 and accumulator 0 the multiply loop stays at 0. -/
lemma gfIter_a_zero (b gf gfIdx : Nat) : ∀ n, gfIter 0 b gf gfIdx 0 n = 0 := by
  intro n
  induction n with
  | zero => rfl
  | succ i ih => rw [gfIter_succ]; simpa using ih

/-- With second operand 0 and accumulator 0 the multiply loop stays at 0. -/
lemma gfIter_num_zero (a gf gfIdx : Nat) : ∀ n, gfIter a 0 gf gfIdx 0 n = 0 := by
  intro n
  induction n with
  | zero => rfl
  | succ i ih => rw [gfIter_succ]; simpa using ih

/-- A power of two XOR-ed with anything below it is their sum
(the bit patterns are disjoint). -/
lemma two_pow_xor_of_lt (i r : Nat) (h : r < 2 ^ i) : 2 ^ i ^^^ r = 2 ^ i + r := by
  have hor : 2 ^ i + r = 2 ^ i ||| r := by simpa using Nat.mul_add_lt_is_or h 1
  rw [hor]
  apply Nat.eq_of_testBit_eq
  intro k
  simp only [Nat.testBit_xor, Nat.testBit_or, Nat.testBit_two_pow]
  by_cases hk : i = k
  · subst hk; simp [Nat.testBit_lt_two_pow h]
  · simp [hk]

/-- Every nonzero number splits as its top bit XOR a strictly smaller rest. -/
lemma top_bit_decomp (b : Nat) (hb : b ≠ 0) :
    b = 2 ^ b.log2 ^^^ (b - 2 ^ b.log2) ∧ b - 2 ^ b.log2 < 2 ^ b.log2 := by
  have h1 : 2 ^ b.log2 ≤ b := Nat.log2_self_le hb
  have h2 : b < 2 ^ (b.log2 + 1) := Nat.lt_log2_self
  have h3 : b - 2 ^ b.log2 < 2 ^ b.log2 := by rw [Nat.pow_succ] at h2; omega
  exact ⟨by rw [two_pow_xor_of_lt _ _ h3]; omega, h3⟩

/-- Commutativity of the all-8-bit multiply loop on the power-of-two basis,
for the program's modulus 0x1C3 and reduce bit 8. -/
lemma basis_comm : ∀ i : Nat, i < 8 → ∀ j : Nat, j < 8 →
    multi_GF_full (2 ^ i) (2 ^ j) 451 8 = multi_GF_full (2 ^ j) (2 ^ i) 451 8 := by
  decide

/-- Commutativity of the all-8-bit multiply loop against a power of two. -/
lemma pow_comm : ∀ a : Nat, a < 256 → ∀ j : Nat, j < 8 →
    multi_GF_full a (2 ^ j) 451 8 = multi_GF_full (2 ^ j) a 451 8 := by
  intro a
  induction a using Nat.strong_induction_on with
  | _ a ih =>
    intro ha j hj
    by_cases h0 : a = 0
    · subst h0
      show gfIter 0 (2 ^ j) 451 8 0 8 = gfIter (2 ^ j) 0 451 8 0 8
      rw [gfIter_a_zero, gfIter_num_zero]
    · obtain ⟨hdec, hlt⟩ := top_bit_decomp a h0
      have hi8 : a.log2 < 8 := (Nat.log2_lt h0).mpr (by omega)
      have hpos : 0 < 2 ^ a.log2 := Nat.two_pow_pos _
      have hle : 2 ^ a.log2 ≤ a := Nat.log2_self_le h0
      have hrlt : a - 2 ^ a.log2 < a := by omega
      have hr256 : a - 2 ^ a.log2 < 256 := by omega
      calc multi_GF_full a (2 ^ j) 451 8
          = multi_GF_full (2 ^ a.log2 ^^^ (a - 2 ^ a.log2)) (2 ^ j) 451 8 := by rw [← hdec]
        _ = multi_GF_full (2 ^ a.log2) (2 ^ j) 451 8 ^^^
              multi_GF_full (a - 2 ^ a.log2) (2 ^ j) 451 8 := by
            have h := gfIter_xor_a (2 ^ j) 451 8 8 (2 ^ a.log2) (a - 2 ^ a.log2) 0 0
            simpa [multi_GF_full] using h.symm
        _ = multi_GF_full (2 ^ j) (2 ^ a.log2) 451 8 ^^^
              multi_GF_full (2 ^ j) (a - 2 ^ a.log2) 451 8 := by
            rw [basis_comm a.log2 hi8 j hj, ih (a - 2 ^ a.log2) hrlt hr256 j hj]
        _ = multi_GF_full (2 ^ j) (2 ^ a.log2 ^^^ (a - 2 ^ a.log2)) 451 8 := by
            have h := gfIter_xor_num (2 ^ j) 451 8 8 (2 ^ a.log2) (a - 2 ^ a.log2) 0 0
            simpa [multi_GF_full] using h
        _ = multi_GF_full (2 ^ j) a 451 8 := by rw [← hdec]

/-- Commutativity of the all-8-bit multiply loop on `[0,256) × [0,256)`,
for the program's modulus 0x1C3 and reduce bit 8. -/
lemma full_comm : ∀ b : Nat, b < 256 → ∀ a : Nat, a < 256 →
    multi_GF_full a b 451 8 = multi_GF_full b a 451 8 := by
  intro b
  induction b using Nat.strong_induction_on with
  | _ b ih =>
    intro hb a ha
    by_cases h0 : b = 0
    · subst h0
      show gfIter a 0 451 8 0 8 = gfIter 0 a 451 8 0 8
      rw [gfIter_a_zero, gfIter_num_zero]
    · obtain ⟨hdec, hlt⟩ := top_bit_decomp b h0
      have hj8 : b.log2 < 8 := (Nat.log2_lt h0).mpr (by omega)
      have hle : 2 ^ b.log2 ≤ b := Nat.log2_self_le h0
      have hpos : 0 < 2 ^ b.log2 := Nat.two_pow_pos _
      have hrlt : b - 2 ^ b.log2 < b := by omega
      have hr256 : b - 2 ^ b.log2 < 256 := by omega
      calc multi_GF_full a b 451 8
          = multi_GF_full a (2 ^ b.log2 ^^^ (b - 2 ^ b.log2)) 451 8 := by rw [← hdec]
        _ = multi_GF_full a (2 ^ b.log2) 451 8 ^^^
              multi_GF_full a (b - 2 ^ b.log2) 451 8 := by
            have h := gfIter_xor_num a 451 8 8 (2 ^ b.log2) (b - 2 ^ b.log2) 0 0
            simpa [multi_GF_full] using h.symm
        _ = multi_GF_full (2 ^ b.log2) a 451 8 ^^^
              multi_GF_full (b - 2 ^ b.log2) a 451 8 := by
            rw [pow_comm a ha b.log2 hj8, ih (b - 2 ^ b.log2) hrlt hr256 a ha]
        _ = multi_GF_full (2 ^ b.log2 ^^^ (b - 2 ^ b.log2)) a 451 8 := by
            have h := gfIter_xor_a a 451 8 8 (2 ^ b.log2) (b - 2 ^ b.log2) 0 0
            simpa [multi_GF_full] using h
        _ = multi_GF_full b a 451 8 := by rw [← hdec]

/-- The bit scan never reports a position above its starting point. -/
lemma findPosAux_le (num : Nat) : ∀ p pos, findPosAux num p = some pos → pos ≤ p := by
  intro p
  induction p with
  | zero =>
      intro pos h
      by_cases hc : num &&& 1 ≠ 0
      · simp only [findPosAux, if_pos hc] at h
        injection h with h
        omega
      · simp only [findPosAux, if_neg hc] at h
        cases h
  | succ p ih =>
      intro pos h
      by_cases hc : num &&& (1 <<< (p + 1)) ≠ 0
      · simp only [findPosAux, if_pos hc] at h
        injection h with h
        omega
      · simp only [findPosAux, if_neg hc] at h
        exact Nat.le_trans (ih pos h) (Nat.le_succ p)

/-- When the bit scan fails, every scanned bit of `num` is clear. -/
lemma findPosAux_none (num : Nat) : ∀ p, findPosAux num p = none →
    ∀ i, i ≤ p → num &&& (1 <<< i) = 0 := by
  intro p
  induction p with
  | zero =>
      intro h i hi
      by_cases hc : num &&& 1 ≠ 0
      · simp only [findPosAux, if_pos hc] at h
        cases h
      · have : i = 0 := by omega
        subst this
        simpa using not_ne_iff.mp hc
  | succ p ih =>
      intro h i hi
      by_cases hc : num &&& (1 <<< (p + 1)) ≠ 0
      · simp only [findPosAux, if_pos hc] at h
        cases h
      · simp only [findPosAux, if_neg hc] at h
        rcases Nat.lt_or_ge i (p + 1) with hlt | hge
        · exact ih h i (by omega)
        · have : i = p + 1 := by omega
          subst this
          exact not_ne_iff.mp hc

/-- Every scanned bit above the position found by the bit scan is clear. -/
lemma findPosAux_some (num : Nat) : ∀ p pos, findPosAux num p = some pos →
    ∀ i, pos < i → i ≤ p → num &&& (1 <<< i) = 0 := by
  intro p
  induction p with
  | zero =>
      intro pos h i h1 h2
      by_cases hc : num &&& 1 ≠ 0
      · simp only [findPosAux, if_pos hc] at h
        injection h with h
        omega
      · simp only [findPosAux, if_neg hc] at h
        cases h
  | succ p ih =>
      intro pos h i h1 h2
      by_cases hc : num &&& (1 <<< (p + 1)) ≠ 0
      · simp only [findPosAux, if_pos hc] at h
        injection h with h
        omega
      · simp only [findPosAux, if_neg hc] at h
        rcases Nat.lt_or_ge i (p + 1) with hlt | hge
        · exact ih pos h i h1 (by omega)
        · have : i = p + 1 := by omega
          subst this
          exact not_ne_iff.mp hc

/-- Iterations of the multiply loop over clear bits of `num` leave a zero
accumulator untouched, so the loop can be shortened past them. -/
lemma gfIter_strip (a num gf gfIdx : Nat) : ∀ n m, m ≤ n →
    (∀ i, m ≤ i → i < n → num &&& (1 <<< i) = 0) →
    gfIter a num gf gfIdx 0 n = gfIter a num gf gfIdx 0 m := by
  intro n
  induction n with
  | zero =>
      intro m hm _
      have : m = 0 := by omega
      subst this
      rfl
  | succ n ih =>
      intro m hm hbits
      rcases Nat.eq_or_lt_of_le hm with he | hlt
      · rw [he]
      · have hm' : m ≤ n := by omega
        have hbit : num &&& (1 <<< n) = 0 := hbits n hm' (by omega)
        rw [gfIter_succ]
        simp only [hbit]
        simp
        exact ih m hm' (fun i hi1 hi2 => hbits i hi1 (by omega))

/-- The source's multiply loop, which starts at the highest set bit of `num`,
agrees with the variant that processes all 8 bits unconditionally. -/
lemma multi_GF_eq_full (a num gf gfIdx : Nat) :
    multi_GF a num gf gfIdx = multi_GF_full a num gf gfIdx := by
  unfold multi_GF multi_GF_full
  cases h : findPosAux num 7 with
  | none =>
      have hbits := findPosAux_none num 7 h
      rw [gfIter_strip a num gf gfIdx 8 0 (by omega) (fun i h1 h2 => hbits i (by omega))]
      rfl
  | some pos =>
      have hle : pos ≤ 7 := findPosAux_le num 7 pos h
      have hbits := findPosAux_some num 7 pos h
      rw [gfIter_strip a num gf gfIdx 8 (pos + 1) (by omega)
        (fun i h1 h2 => hbits i (by omega) (by omega))]

/-- On 8-bit inputs the folding network of `parity8` computes the XOR-fold of
all bits. -/
lemma parity8_eq_bitFold_of_lt : ∀ x : Nat, x < 256 → parity8 x = bitFold x := by
  decide

/-! ### Claim theorems -/

/-- C5: with the fixed modulus 0x1C3 and reduce bit 8, `0` annihilates and `1`
is a right identity for `multi_GF`: for every `a` in `[0,256)`,
`multi_GF a 0 = 0` and `multi_GF a 1 = a`. -/
theorem multi_GF_zero_one (a : Nat) (ha : a < 256) :
    multi_GF a 0 451 8 = 0 ∧ multi_GF a 1 451 8 = a := by
  revert a ha
  decide

/-- Witness for C5 at `a = 200`. -/
theorem multi_GF_zero_one_witness :
    200 < 256 ∧ (multi_GF 200 0 451 8 = 0 ∧ multi_GF 200 1 451 8 = 200) :=
  ⟨by decide, multi_GF_zero_one 200 (by decide)⟩

/-- C6: with the fixed modulus 0x1C3 and reduce bit 8, `multi_GF` is
commutative on `[0,256) × [0,256)`. -/
theorem multi_GF_comm (a : Nat) (ha : a < 256) (b : Nat) (hb : b < 256) :
    multi_GF a b 451 8 = multi_GF b a 451 8 := by
  rw [multi_GF_eq_full, multi_GF_eq_full]
  exact full_comm b hb a ha

/-- Witness for C6 at `a = 23`, `b = 181`. -/
theorem multi_GF_comm_witness :
    23 < 256 ∧ 181 < 256 ∧ multi_GF 23 181 451 8 = multi_GF 181 23 451 8 :=
  ⟨by decide, by decide, multi_GF_comm 23 (by decide) 181 (by decide)⟩

/-- C7: the leading zero bits of the second operand are inert: the multiply
loop that starts at the highest set bit of `num` returns the same result as
the variant processing all 8 bits unconditionally, for all operands and any
modulus and reduce-bit position (in particular for `a`, `b` in `[0,256)`). -/
theorem multi_GF_skip_leading_zeros (a num gf gfIdx : Nat) :
    multi_GF a num gf gfIdx = multi_GF_full a num gf gfIdx :=
  multi_GF_eq_full a num gf gfIdx

/-- C10: on its 8-bit domain the parity helper `parity8` returns the XOR-fold
of all bits of its argument (1 exactly when the number of set bits is odd). -/
theorem parity8_is_bit_xor_fold (x : Nat) (hx : x < 256) :
    parity8 x = bitFold x :=
  parity8_eq_bitFold_of_lt x hx

/-- Witness for C10 at `x = 200`. -/
theorem parity8_is_bit_xor_fold_witness :
    200 < 256 ∧ parity8 200 = bitFold 200 :=
  ⟨by decide, parity8_is_bit_xor_fold 200 (by decide)⟩

/-- C1: one application of `update_fsr` to a 5-word 32-bit state `[A,B,C,D,E]`
with a 256-entry table yields exactly `[B,C,D,E,F]` with
`F = ((A << 8) mod 2^32) XOR table[A >> 24] XOR D`; no other word changes. -/
theorem update_fsr_step (A B C D E : Nat)
    (hA : A < 4294967296) (hB : B < 4294967296) (hC : C < 4294967296)
    (hD : D < 4294967296) (hE : E < 4294967296)
    (table : List Nat) (htab : table.length = 256) :
    update_fsr [A, B, C, D, E] table =
      [B, C, D, E, ((A <<< 8) % 4294967296) ^^^ table.getD (A >>> 24) 0 ^^^ D] := rfl

/-- Witness for C1 at the seed of `main` with the all-sevens table. -/
theorem update_fsr_step_witness :
    update_fsr [0xBE3CA984, 0x974E6719, 0x86916EFF, 0xF52DACF9, 0x960329B5]
        (List.replicate 256 7) =
      [0x974E6719, 0x86916EFF, 0xF52DACF9, 0x960329B5,
        ((0xBE3CA984 <<< 8) % 4294967296) ^^^
          (List.replicate 256 7).getD (0xBE3CA984 >>> 24) 0 ^^^ 0xF52DACF9] :=
  update_fsr_step 0xBE3CA984 0x974E6719 0x86916EFF 0xF52DACF9 0x960329B5
    (by decide) (by decide) (by decide) (by decide) (by decide)
    (List.replicate 256 7) (by simp)

/-- The C constant `PICK8 = 0x100` tests bit 8. -/
lemma and_256_ne_zero (z : Nat) : z &&& 256 ≠ 0 ↔ z.testBit 8 = true := by
  have h := and_one_shiftLeft_ne_zero z 8
  norm_num [Nat.one_shiftLeft] at h
  exact h

/-- A 9-bit modulus with bit 8 set has `testBit 8 = true`. -/
lemma testBit8_of_range (gf : Nat) (h1 : 256 ≤ gf) (h2 : gf < 512) :
    gf.testBit 8 = true := by
  simp only [Nat.testBit_to_div_mod, decide_eq_true_eq]
  norm_num
  omega

/-- A 9-bit value with bit 8 clear is below 256. -/
lemma lt256_of_bit8_false (z : Nat) (hz : z < 512) (hb : z.testBit 8 = false) :
    z < 256 := by
  simp only [Nat.testBit_to_div_mod, decide_eq_false_iff_not] at hb
  norm_num at hb
  omega

/-- XOR of two 9-bit values that both have bit 8 set is below 256. -/
lemma bit8_xor_lt256 (u v : Nat) (hu : u < 512) (hv : v < 512)
    (hbu : u.testBit 8 = true) (hbv : v.testBit 8 = true) : u ^^^ v < 256 := by
  have h9 : u ^^^ v < 2 ^ 9 := Nat.xor_lt_two_pow hu hv
  have h9' : u ^^^ v < 512 := h9
  exact lt256_of_bit8_false _ h9' (by simp [Nat.testBit_xor, hbu, hbv])

/-- Unfolding equation for `coeffStep`. -/
lemma coeffStep_def (gf m : Nat) : coeffStep gf m =
    if ((m <<< 1) % U32) &&& 256 ≠ 0
    then ((m <<< 1) % U32) ^^^
      (gf ||| (if parity8 (((m <<< 1) % U32) ^^^ gf) = 0 then 1 else 0))
    else ((m <<< 1) % U32) := rfl

/-- Unfolding equation for `coeffSpecStep`. -/
lemma coeffSpecStep_def (gf m : Nat) : coeffSpecStep gf m =
    if (m <<< 1) &&& 256 ≠ 0
    then (if bitFold ((m <<< 1) ^^^ gf) = 0 then (m <<< 1) ^^^ (gf ||| 1)
          else (m <<< 1) ^^^ gf)
    else (m <<< 1) := rfl

/-- For a field-element accumulator and a 9-bit modulus with bit 8 set, one
pass of the `make_coefficients` inner loop agrees with the spec's described
step, and the result is again a field element. -/
lemma coeffStep_eq_spec (gf m : Nat) (h1 : 256 ≤ gf) (h2 : gf < 512) (hm : m < 256) :
    coeffStep gf m = coeffSpecStep gf m ∧ coeffSpecStep gf m < 256 := by
  have hshift : m <<< 1 = 2 * m := by rw [Nat.shiftLeft_eq]; ring
  have hm1lt : m <<< 1 < 512 := by omega
  have hmod : (m <<< 1) % U32 = m <<< 1 := Nat.mod_eq_of_lt (by norm_num [U32]; omega)
  have hgfbit : gf.testBit 8 = true := testBit8_of_range gf h1 h2
  rw [coeffStep_def, coeffSpecStep_def, hmod]
  by_cases hc : (m <<< 1) &&& 256 ≠ 0
  · simp only [if_pos hc]
    have hbit : (m <<< 1).testBit 8 = true := (and_256_ne_zero _).mp hc
    have hxlt : (m <<< 1) ^^^ gf < 256 := bit8_xor_lt256 _ _ hm1lt (by omega) hbit hgfbit
    have hpar : parity8 ((m <<< 1) ^^^ gf) = bitFold ((m <<< 1) ^^^ gf) :=
      parity8_eq_bitFold_of_lt _ hxlt
    rw [hpar]
    by_cases hp : bitFold ((m <<< 1) ^^^ gf) = 0
    · simp only [if_pos hp]
      refine ⟨trivial, ?_⟩
      have h2' : gf < 2 ^ 9 := h2
      have hone : (1 : Nat) < 2 ^ 9 := by norm_num
      have hor1 : gf ||| 1 < 512 := Nat.or_lt_two_pow h2' hone
      have horbit : (gf ||| 1).testBit 8 = true := by simp [Nat.testBit_or, hgfbit]
      exact bit8_xor_lt256 _ _ hm1lt hor1 hbit horbit
    · simp only [if_neg hp]
      refine ⟨by rw [Nat.or_zero], ?_⟩
      exact bit8_xor_lt256 _ _ hm1lt (by omega) hbit hgfbit
  · simp only [if_neg hc]
    refine ⟨trivial, ?_⟩
    have hbit : (m <<< 1).testBit 8 = false := by
      rcases Bool.eq_false_or_eq_true ((m <<< 1).testBit 8) with h | h
      · exact absurd ((and_256_ne_zero _).mpr h) hc
      · exact h
    exact lt256_of_bit8_false _ hm1lt hbit

/-- The `make_coefficients` inner loop agrees with the spec's repeated
shift-and-reduce procedure and keeps the accumulator a field element. -/
lemma coeffLoop_eq_spec (gf : Nat) (h1 : 256 ≤ gf) (h2 : gf < 512) :
    ∀ n m, m < 256 →
      coeffLoop gf n m = coeffSpecLoop gf n m ∧ coeffSpecLoop gf n m < 256 := by
  intro n
  induction n with
  | zero => intro m hm; exact ⟨rfl, hm⟩
  | succ n ih =>
      intro m hm
      obtain ⟨heq, hlt⟩ := coeffStep_eq_spec gf m h1 h2 hm
      have hrec := ih (coeffSpecStep gf m) hlt
      constructor
      · show coeffLoop gf n (coeffStep gf m) = coeffSpecLoop gf n (coeffSpecStep gf m)
        rw [heq]
        exact hrec.1
      · exact hrec.2

/-- `make_coefficients` from unit accumulators computes, entrywise, the
spec's repeated shift-and-reduce procedure (general form). -/
lemma make_coefficients_eq_spec (gf : Nat) (h1 : 256 ≤ gf) (h2 : gf < 512)
    (e0 e1 e2 e3 : Nat) :
    make_coefficients [1, 1, 1, 1] [e0, e1, e2, e3] gf =
      [coeffSpec gf e0, coeffSpec gf e1, coeffSpec gf e2, coeffSpec gf e3] := by
  have h : ∀ e : Nat, coeffLoop gf e 1 = coeffSpecLoop gf e 1 :=
    fun e => (coeffLoop_eq_spec gf h1 h2 e 1 (by norm_num)).1
  show [coeffLoop gf e0 1, coeffLoop gf e1 1, coeffLoop gf e2 1, coeffLoop gf e3 1] =
    [coeffSpec gf e0, coeffSpec gf e1, coeffSpec gf e2, coeffSpec gf e3]
  rw [h e0, h e1, h e2, h e3]
  rfl

/-- C3: for a 9-bit modulus with bit 8 set, `make_coefficients` started from
the unit accumulators (as in `main`) produces, for each exponent `e` in
input order, the element obtained by starting an accumulator at 1 and
repeating `e` times: shift left one bit and, when bit 8 becomes set, XOR
with `modulus OR 1` if `parity(accumulator XOR modulus) = 0`, else with the
modulus alone. -/
theorem make_coefficients_spec (gf : Nat) (h1 : 256 ≤ gf) (h2 : gf < 512)
    (e0 e1 e2 e3 : Nat) :
    make_coefficients [1, 1, 1, 1] [e0, e1, e2, e3] gf =
      [coeffSpec gf e0, coeffSpec gf e1, coeffSpec gf e2, coeffSpec gf e3] :=
  make_coefficients_eq_spec gf h1 h2 e0 e1 e2 e3

/-- Witness for C3 at the program's exponents {71, 12, 3, 24} and modulus
0x1C3. -/
theorem make_coefficients_spec_witness :
    make_coefficients [1, 1, 1, 1] [71, 12, 3, 24] 451 =
      [coeffSpec 451 71, coeffSpec 451 12, coeffSpec 451 3, coeffSpec 451 24] :=
  make_coefficients_spec 451 (by decide) (by decide) 71 12 3 24

/-- C9 counterexample: `make_coefficients` contains no bounds check and
signals nothing for an exponent outside [0,1024]: at exponent 2000 it
processes the loop normally, returning the plain 2000-fold iterate of the
shift-and-reduce step, a field element below 256. -/
theorem make_coefficients_no_bounds_check :
    make_coefficients [1, 1, 1, 1] [2000, 12, 3, 24] 451 =
      [coeffSpecLoop 451 2000 1, coeffSpecLoop 451 12 1,
        coeffSpecLoop 451 3 1, coeffSpecLoop 451 24 1] ∧
      coeffSpecLoop 451 2000 1 < 256 := by
  have h : ∀ e : Nat, coeffLoop 451 e 1 = coeffSpecLoop 451 e 1 ∧ coeffSpecLoop 451 e 1 < 256 :=
    fun e => coeffLoop_eq_spec 451 (by decide) (by decide) e 1 (by norm_num)
  constructor
  · show [coeffLoop 451 2000 1, coeffLoop 451 12 1, coeffLoop 451 3 1, coeffLoop 451 24 1] = _
    rw [(h 2000).1, (h 12).1, (h 3).1, (h 24).1]
  · exact (h 2000).2

/-- C9 amended: for any exponent outside [0,1024] (and a 9-bit modulus with
bit 8 set), `make_coefficients` performs no bounds check: it processes the
exponent normally, iterating the shift-and-reduce step that many times, and
still returns a field element in [0,255]. -/
theorem make_coefficients_out_of_range_normal (e : Nat) (he : 1024 < e)
    (gf : Nat) (h1 : 256 ≤ gf) (h2 : gf < 512) :
    make_coefficients [1, 1, 1, 1] [e, 12, 3, 24] gf =
      [coeffSpec gf e, coeffSpec gf 12, coeffSpec gf 3, coeffSpec gf 24] ∧
      coeffSpec gf e < 256 :=
  ⟨make_coefficients_eq_spec gf h1 h2 e 12 3 24,
    (coeffLoop_eq_spec gf h1 h2 e 1 (by norm_num)).2⟩

/-- Witness for the amended C9 at exponent 2000 and modulus 0x1C3. -/
theorem make_coefficients_out_of_range_normal_witness :
    make_coefficients [1, 1, 1, 1] [2000, 12, 3, 24] 451 =
      [coeffSpec 451 2000, coeffSpec 451 12, coeffSpec 451 3, coeffSpec 451 24] ∧
      coeffSpec 451 2000 < 256 :=
  make_coefficients_out_of_range_normal 2000 (by decide) 451 (by decide) (by decide)

/-- Reading one slot of a `set`. -/
lemma getD_set_zero (t : List Nat) (k i v : Nat) (hk : k < t.length) :
    (t.set k v).getD i 0 = if k = i then v else t.getD i 0 := by
  by_cases he : k = i
  · subst he
    simp [List.getD_eq_getElem?_getD, List.getElem?_set_self hk]
  · simp [List.getD_eq_getElem?_getD, List.getElem?_set_ne he, he]

/-- A fold that sets slot `k` to `g k (old value)` for each `k` in
`range' lo n` rewrites exactly the slots in `[lo, lo+n)`, once each. -/
lemma foldl_set_range' (g : Nat → Nat → Nat) :
    ∀ (n lo : Nat) (t : List Nat), lo + n ≤ t.length → ∀ i, i < t.length →
      ((List.range' lo n).foldl (fun s k => s.set k (g k (s.getD k 0))) t).getD i 0 =
        if lo ≤ i ∧ i < lo + n then g i (t.getD i 0) else t.getD i 0 := by
  intro n
  induction n with
  | zero =>
      intro lo t hlen i hi
      rw [if_neg (by omega)]
      rfl
  | succ n ih =>
      intro lo t hlen i hi
      rw [List.range'_succ]
      simp only [List.foldl_cons]
      have hlo : lo < t.length := by omega
      have hlen1 : (t.set lo (g lo (t.getD lo 0))).length = t.length :=
        List.length_set t lo _
      have hrec := ih (lo + 1) (t.set lo (g lo (t.getD lo 0)))
        (by rw [hlen1]; omega) i (by rw [hlen1]; exact hi)
      rw [hrec, getD_set_zero t lo i _ hlo]
      by_cases h1 : lo = i
      · subst h1
        rw [if_pos rfl, if_neg (by omega), if_pos (by omega)]
      · rw [if_neg h1]
        by_cases h2 : lo + 1 ≤ i ∧ i < lo + 1 + n
        · rw [if_pos h2, if_pos (by omega)]
        · rw [if_neg h2, if_neg (by omega)]

/-- Entry `i` of `make_alpha_table` is the four packed lanes OR-ed into that
entry's prior contents (the function itself does not zero-initialize). -/
lemma make_alpha_table_getD (alpha multi : List Nat) (gf : Nat)
    (hlen : alpha.length = 256) (i : Nat) (hi : i < 256) :
    (make_alpha_table alpha multi gf).getD i 0 =
      alphaEntry multi gf i (alpha.getD i 0) := by
  have h := foldl_set_range' (fun k a => alphaEntry multi gf k a) 256 0 alpha
    (by omega) i (by omega)
  rw [if_pos (by omega)] at h
  show ((List.range 256).foldl (fun t k => t.set k (alphaEntry multi gf k (t.getD k 0)))
    alpha).getD i 0 = alphaEntry multi gf i (alpha.getD i 0)
  rw [List.range_eq_range']
  exact h

/-- C4 counterexample: `make_alpha_table` does not zero-initialize: with prior
contents 1 in every slot, entry 0 is 1, not the pure OR of the four packed
lanes (which is 0 at index 0). -/
theorem make_alpha_table_depends_on_prior :
    (make_alpha_table (List.replicate 256 1) [1, 1, 1, 1] 451).getD 0 0 ≠
      alphaEntry [1, 1, 1, 1] 451 0 0 := by
  rw [make_alpha_table_getD (List.replicate 256 1) [1, 1, 1, 1] 451 (by simp) 0 (by norm_num)]
  decide

/-- C4 amended: `make_alpha_table` ORs the packed lanes into each entry's
prior contents rather than zero-initializing; its output therefore depends
on the prior contents, and only for a zero-filled array (as `main` declares
it) does every entry equal exactly the OR of the four packed lanes. -/
theorem make_alpha_table_or_into_prior (alpha multi : List Nat) (gf : Nat)
    (hlen : alpha.length = 256) (i : Nat) (hi : i < 256) :
    (make_alpha_table alpha multi gf).getD i 0 =
        alphaEntry multi gf i (alpha.getD i 0) ∧
      (make_alpha_table (List.replicate 256 0) multi gf).getD i 0 =
        alphaEntry multi gf i 0 :=
  ⟨make_alpha_table_getD alpha multi gf hlen i hi, by
    have h := make_alpha_table_getD (List.replicate 256 0) multi gf (by simp) i hi
    have hz : (List.replicate 256 0).getD i 0 = 0 := by
      rw [List.getD_eq_getElem?_getD, List.getElem?_replicate_of_lt (by omega)]
      rfl
    rw [hz] at h
    exact h⟩

/-- Witness for the amended C4 at the all-ones prior table, unit multipliers,
modulus 0x1C3, entry 0. -/
theorem make_alpha_table_or_into_prior_witness :
    (make_alpha_table (List.replicate 256 1) [1, 1, 1, 1] 451).getD 0 0 =
        alphaEntry [1, 1, 1, 1] 451 0 ((List.replicate 256 1).getD 0 0) ∧
      (make_alpha_table (List.replicate 256 0) [1, 1, 1, 1] 451).getD 0 0 =
        alphaEntry [1, 1, 1, 1] 451 0 0 :=
  make_alpha_table_or_into_prior (List.replicate 256 1) [1, 1, 1, 1] 451
    (by simp) 0 (by decide)

/-- Closure invariant of the multiply loop: for a field-element first operand
and a 9-bit modulus with bit 8 set, the accumulator stays below 256. -/
lemma gfIter_lt256 (a b gf : Nat) (ha : a < 256) (h1 : 256 ≤ gf) (h2 : gf < 512) :
    ∀ n t, t < 256 → gfIter a b gf 8 t n < 256 := by
  have hgfbit : gf.testBit 8 = true := testBit8_of_range gf h1 h2
  intro n
  induction n with
  | zero => intro t ht; exact ht
  | succ i ih =>
      intro t ht
      rw [gfIter_succ]
      apply ih
      have hsh : (t <<< 1) % U32 = t <<< 1 := by
        apply Nat.mod_eq_of_lt
        rw [Nat.shiftLeft_eq]
        norm_num [U32]
        omega
      have hshlt : (t <<< 1) < 512 := by rw [Nat.shiftLeft_eq]; omega
      have hinj : (if b &&& (1 <<< i) ≠ 0 then a else 0) < 512 := by
        split <;> omega
      have hu9 : ((t <<< 1) % U32) ^^^ (if b &&& (1 <<< i) ≠ 0 then a else 0) < 2 ^ 9 := by
        rw [hsh]
        exact Nat.xor_lt_two_pow hshlt hinj
      have hu : ((t <<< 1) % U32) ^^^ (if b &&& (1 <<< i) ≠ 0 then a else 0) < 512 := hu9
      by_cases hc :
          (((t <<< 1) % U32) ^^^ (if b &&& (1 <<< i) ≠ 0 then a else 0)) &&& (1 <<< 8) ≠ 0
      · rw [if_pos hc]
        exact bit8_xor_lt256 _ _ hu (by omega) ((and_one_shiftLeft_ne_zero _ 8).mp hc) hgfbit
      · rw [if_neg hc]
        apply lt256_of_bit8_false _ hu
        rcases Bool.eq_false_or_eq_true
            ((((t <<< 1) % U32) ^^^ (if b &&& (1 <<< i) ≠ 0 then a else 0)).testBit 8) with h | h
        · exact absurd ((and_one_shiftLeft_ne_zero _ 8).mpr h) hc
        · exact h

/-- Field-element closure of `multi_GF`: for `a < 256`, any second operand,
and any 9-bit modulus with bit 8 set, the product is below 256. -/
lemma multi_GF_lt256 (a b gf : Nat) (ha : a < 256) (h1 : 256 ≤ gf) (h2 : gf < 512) :
    multi_GF a b gf 8 < 256 := by
  unfold multi_GF
  cases findPosAux b 7 with
  | none => norm_num
  | some pos => exact gfIter_lt256 a b gf ha h1 h2 (pos + 1) 0 (by norm_num)

/-- Unfolded form of the 4-lane OR accumulation of one table entry. -/
lemma alphaEntry_unfold (m0 m1 m2 m3 gf i init : Nat) :
    alphaEntry [m0, m1, m2, m3] gf i init =
      (((init ||| ((multi_GF m0 i gf 8 <<< 0) % U32)) |||
        ((multi_GF m1 i gf 8 <<< 8) % U32)) |||
        ((multi_GF m2 i gf 8 <<< 16) % U32)) |||
        ((multi_GF m3 i gf 8 <<< 24) % U32) := rfl

/-- A byte shifted by at most 24 bits does not wrap modulo 2^32. -/
lemma shift_small_mod (r c : Nat) (hr : r < 256) (hc : c ≤ 24) :
    (r <<< c) % U32 = r <<< c := by
  apply Nat.mod_eq_of_lt
  rw [Nat.shiftLeft_eq]
  have h1 : 2 ^ c ≤ 2 ^ 24 := Nat.pow_le_pow_right (by norm_num) hc
  have h2 : r * 2 ^ c ≤ 255 * 2 ^ 24 := Nat.mul_le_mul (by omega) h1
  norm_num [U32] at h2 ⊢
  omega

/-- OR with a disjoint shifted value is addition. -/
lemma lor_eq_add_of_lt (x y n : Nat) (hx : x < 2 ^ n) :
    x ||| (y <<< n) = (y <<< n) + x := by
  rw [Nat.shiftLeft_eq, Nat.or_comm, Nat.mul_comm y (2 ^ n)]
  exact (Nat.mul_add_lt_is_or hx y).symm

/-- Packing four bytes into the four byte lanes of a 32-bit word. -/
lemma pack_entry (r0 r1 r2 r3 : Nat) (h0 : r0 < 256) (h1 : r1 < 256)
    (h2 : r2 < 256) (h3 : r3 < 256) :
    (((0 ||| ((r0 <<< 0) % U32)) ||| ((r1 <<< 8) % U32)) |||
      ((r2 <<< 16) % U32)) ||| ((r3 <<< 24) % U32) =
      r0 + 256 * r1 + 65536 * r2 + 16777216 * r3 := by
  rw [shift_small_mod r0 0 h0 (by norm_num), shift_small_mod r1 8 h1 (by norm_num),
    shift_small_mod r2 16 h2 (by norm_num), shift_small_mod r3 24 h3 (by norm_num)]
  rw [Nat.zero_or, Nat.shiftLeft_zero]
  have s1 : r1 <<< 8 + r0 < 2 ^ 16 := by rw [Nat.shiftLeft_eq]; norm_num; omega
  have s2 : r2 <<< 16 + (r1 <<< 8 + r0) < 2 ^ 24 := by
    rw [Nat.shiftLeft_eq, Nat.shiftLeft_eq]; norm_num; omega
  rw [lor_eq_add_of_lt r0 r1 8 h0, lor_eq_add_of_lt _ r2 16 s1,
    lor_eq_add_of_lt _ r3 24 s2]
  rw [Nat.shiftLeft_eq, Nat.shiftLeft_eq, Nat.shiftLeft_eq]
  norm_num
  ring

/-- Extracting byte lane `j` from four packed byte lanes. -/
lemma pack_lane (r0 r1 r2 r3 : Nat) (h0 : r0 < 256) (h1 : r1 < 256)
    (h2 : r2 < 256) (h3 : r3 < 256) (j : Nat) (hj : j < 4) :
    ((r0 + 256 * r1 + 65536 * r2 + 16777216 * r3) >>> (8 * j)) &&& 255 =
      [r0, r1, r2, r3].getD j 0 := by
  rw [Nat.shiftRight_eq_div_pow,
    show (255 : Nat) = 2 ^ 8 - 1 by norm_num, Nat.and_pow_two_sub_one_eq_mod]
  interval_cases j <;> simp <;> omega

/-- C2 counterexample: with a modulus whose bit 8 is clear (here 0), products
escape the byte range and lanes overlap: byte lane 0 of entry 2 is not
`multiply(multipliers[0], 2)`. -/
theorem alpha_table_lane_fails_for_bad_modulus :
    ((make_alpha_table (List.replicate 256 0) [255, 0, 0, 0] 0).getD 2 0 >>> (8 * 0)) &&& 255 ≠
      multi_GF ([255, 0, 0, 0].getD 0 0) 2 0 8 := by
  rw [make_alpha_table_getD (List.replicate 256 0) [255, 0, 0, 0] 0 (by simp) 2 (by norm_num)]
  decide

/-- C2 amended: for a multiplier set of field elements (each below 256) and a
9-bit modulus with bit 8 set, byte lane `j` of entry `i` of the table built
from the zero-filled array equals `multiply(multipliers[j], i)`. -/
theorem alpha_table_lane (m0 m1 m2 m3 : Nat) (hm0 : m0 < 256) (hm1 : m1 < 256)
    (hm2 : m2 < 256) (hm3 : m3 < 256) (gf : Nat) (hg1 : 256 ≤ gf) (hg2 : gf < 512)
    (i : Nat) (hi : i < 256) (j : Nat) (hj : j < 4) :
    ((make_alpha_table (List.replicate 256 0) [m0, m1, m2, m3] gf).getD i 0 >>> (8 * j)) &&& 255 =
      multi_GF ([m0, m1, m2, m3].getD j 0) i gf 8 := by
  rw [make_alpha_table_getD _ _ _ (by simp) i hi]
  have hz : (List.replicate 256 0).getD i 0 = 0 := by
    rw [List.getD_eq_getElem?_getD, List.getElem?_replicate_of_lt (by omega)]
    rfl
  rw [hz, alphaEntry_unfold]
  have hr0 := multi_GF_lt256 m0 i gf hm0 hg1 hg2
  have hr1 := multi_GF_lt256 m1 i gf hm1 hg1 hg2
  have hr2 := multi_GF_lt256 m2 i gf hm2 hg1 hg2
  have hr3 := multi_GF_lt256 m3 i gf hm3 hg1 hg2
  rw [pack_entry _ _ _ _ hr0 hr1 hr2 hr3, pack_lane _ _ _ _ hr0 hr1 hr2 hr3 j hj]
  interval_cases j <;> rfl

/-- Witness for the amended C2 at the program's multipliers
{26, 109, 8, 182} (beta^71, beta^12, beta^3, beta^24), modulus 0x1C3,
entry 1, lane 3. -/
theorem alpha_table_lane_witness :
    ((make_alpha_table (List.replicate 256 0) [26, 109, 8, 182] 451).getD 1 0 >>> (8 * 3)) &&& 255 =
      multi_GF ([26, 109, 8, 182].getD 3 0) 1 451 8 :=
  alpha_table_lane 26 109 8 182 (by decide) (by decide) (by decide) (by decide)
    451 (by decide) (by decide) 1 (by decide) 3 (by decide)

/-- Two bytes shifted into different byte lanes have disjoint bits. -/
lemma shifted_disjoint (x y c d : Nat) (hx : x < 256) (hy : y < 256)
    (h : c + 8 ≤ d ∨ d + 8 ≤ c) : (x <<< c) &&& (y <<< d) = 0 := by
  apply Nat.eq_of_testBit_eq
  intro k
  simp only [Nat.testBit_and, Nat.testBit_shiftLeft, Nat.zero_testBit]
  rcases Nat.lt_or_ge k c with h1 | h1
  · have hc : ¬(k ≥ c) := by omega
    simp [hc]
  · rcases Nat.lt_or_ge k d with h2 | h2
    · have hd : ¬(k ≥ d) := by omega
      simp [hd]
    · rcases h with h3 | h3
      · have hpow : (256 : Nat) ≤ 2 ^ (k - c) := by
          calc (256 : Nat) = 2 ^ 8 := by norm_num
            _ ≤ 2 ^ (k - c) := Nat.pow_le_pow_right (by norm_num) (by omega)
        have hb : x.testBit (k - c) = false :=
          Nat.testBit_lt_two_pow (lt_of_lt_of_le hx hpow)
        simp [hb]
      · have hpow : (256 : Nat) ≤ 2 ^ (k - d) := by
          calc (256 : Nat) = 2 ^ 8 := by norm_num
            _ ≤ 2 ^ (k - d) := Nat.pow_le_pow_right (by norm_num) (by omega)
        have hb : y.testBit (k - d) = false :=
          Nat.testBit_lt_two_pow (lt_of_lt_of_le hy hpow)
        simp [hb]

/-- C8: field-element closure for a 9-bit modulus with bit 8 set: `multi_GF`
with a first operand below 256 always returns a value below 256 (for any
second operand); the coefficient builder's accumulators stay below 256
throughout; and any two products packed into different byte lanes of an
alpha-table entry occupy disjoint bits. -/
theorem multi_GF_closure (gf : Nat) (h1 : 256 ≤ gf) (h2 : gf < 512) :
    (∀ a b : Nat, a < 256 → multi_GF a b gf 8 < 256) ∧
      (∀ e : Nat, coeffLoop gf e 1 < 256) ∧
      (∀ a b a2 b2 j k : Nat, a < 256 → a2 < 256 → j < 4 → k < 4 → j ≠ k →
        (multi_GF a b gf 8 <<< (8 * j)) &&& (multi_GF a2 b2 gf 8 <<< (8 * k)) = 0) := by
  refine ⟨fun a b ha => multi_GF_lt256 a b gf ha h1 h2, ?_, ?_⟩
  · intro e
    have h := coeffLoop_eq_spec gf h1 h2 e 1 (by norm_num)
    rw [h.1]
    exact h.2
  · intro a b a2 b2 j k ha ha2 hj hk hne
    apply shifted_disjoint _ _ _ _ (multi_GF_lt256 a b gf ha h1 h2)
      (multi_GF_lt256 a2 b2 gf ha2 h1 h2)
    omega

/-- Witness for C8 at modulus 0x1C3: closure of a sample product with a
second operand above 255, a coefficient accumulator, and disjointness of
lanes 0 and 2. -/
theorem multi_GF_closure_witness :
    multi_GF 200 100000 451 8 < 256 ∧ coeffLoop 451 71 1 < 256 ∧
      (multi_GF 26 5 451 8 <<< (8 * 0)) &&& (multi_GF 8 9 451 8 <<< (8 * 2)) = 0 :=
  ⟨(multi_GF_closure 451 (by decide) (by decide)).1 200 100000 (by decide),
    (multi_GF_closure 451 (by decide) (by decide)).2.1 71,
    (multi_GF_closure 451 (by decide) (by decide)).2.2 26 5 8 9 0 2
      (by decide) (by decide) (by decide) (by decide) (by decide)⟩

end K2
